import Mathlib

/-!
# Verification of the Hmi upload webservice core

Shallow embedding of `src/webservice/src/index.js` (two variants: a
PostgreSQL-backed service and a filesystem-backed service) and proofs of
the specified properties of its core components: the content sniffer
(`guessDelimiterFromContent`), the retry wrapper (`withRetries`), the
memoized schema initializer (`ensureDb`), and the upload store
(`POST /upload`, `GET /latest`) for both backends.

Strings are modelled as `List Char` (the payload is modelled at the level
of the decoded UTF-8 text, matching `buffer.toString("utf8")` in the
handler).  Promises are modelled by explicit state passing; the event-loop
interleaving of the single-threaded runtime is modelled by sequential
calls.
-/

set_option autoImplicit false

/-! ## Content Sniffer: `guessDelimiterFromContent` -/

/--
First element of `content.split(/\r?\n/)`: the characters up to the first
`"\n"`, with a single `"\r"` immediately before that `"\n"` dropped.
A lone `"\r"` is not a terminator for this regex.
-/
def firstLineChars : List Char → List Char
  | [] => []
  | '\n' :: _ => []
  | '\r' :: '\n' :: _ => []
  | c :: rest => c :: firstLineChars rest

/--
`guessDelimiterFromContent` from the source: counts `,` and `;` in the
first line and returns `;` exactly when the semicolon count strictly
exceeds the comma count, else `,`.  (`content || ""` and `[0] || ""` are
identities on the `List Char` model.)
-/
def guessDelimiterFromContent (content : List Char) : Char :=
  let firstLine := firstLineChars content
  let commaCount := firstLine.count ','
  let semicolonCount := firstLine.count ';'
  if semicolonCount > commaCount then ';' else ','

/-! ## Error model and `isTransientDbError` -/

/-- An error thrown by the pg driver or by the service itself: an optional
`code` field plus a `message` string. -/
structure DbError where
  code : Option (List Char)
  message : List Char
deriving DecidableEq

/-- Boolean test that `needle` occurs at the start of `hay`. -/
def isPrefixOfB : List Char → List Char → Bool
  | [], _ => true
  | _ :: _, [] => false
  | a :: as, b :: bs => a == b && isPrefixOfB as bs

/-- Boolean test that `needle` occurs contiguously somewhere in `hay`
(JavaScript `String.prototype.includes`). -/
def containsSeq (needle : List Char) : List Char → Bool
  | [] => needle.isEmpty
  | c :: rest => isPrefixOfB needle (c :: rest) || containsSeq needle rest

/-- Character-wise lower-casing (`String.prototype.toLowerCase`; the
model covers the ASCII range the service compares against). -/
def lowerChars (l : List Char) : List Char := l.map Char.toLower

/--
`isTransientDbError` from the source: the error is transient when its
`code` is `"57P03"` or its lower-cased message mentions that the database
system is starting up.
-/
def isTransientDbError (e : DbError) : Bool :=
  let msg := lowerChars e.message
  e.code == some "57P03".toList
    || containsSeq "database system is starting up".toList msg
    || containsSeq "the database system is starting up".toList msg

/-! ## Backoff Executor: `withRetries` -/

/-- Outcome of one run of `withRetries`.  `nullErr` is the unreachable
`throw lastErr` after the loop with `lastErr` still `null` (only possible
when `attempts = 0`). -/
inductive RetryOutcome (α : Type) where
  | ok : α → RetryOutcome α
  | err : DbError → RetryOutcome α
  | nullErr : RetryOutcome α
deriving DecidableEq

/--
The loop body of `withRetries`, from iteration `i` with `fuel` iterations
left (`fuel = attempts - i` at every call).  The operation `fn` is a
deterministic trace: `fn i` is the outcome of its `i`-th invocation.
Returns the outcome, the number of invocations of `fn` performed, and the
list of sleeps (each `delayMs` long) performed, in order.
-/
def withRetriesGo {α : Type} (fn : Nat → Except DbError α) (delayMs attempts : Nat) :
    Nat → Nat → RetryOutcome α × Nat × List Nat
  | 0, _ => (.nullErr, 0, [])
  | fuel + 1, i =>
    match fn i with
    | .ok v => (.ok v, 1, [])
    | .error e =>
      if !isTransientDbError e || i == attempts - 1 then
        (.err e, 1, [])
      else
        let r := withRetriesGo fn delayMs attempts fuel (i + 1)
        (r.1, r.2.1 + 1, delayMs :: r.2.2)

/--
`withRetries(fn, { attempts, delayMs })` from the source (the source's
defaults are `attempts = 6`, `delayMs = 1000`): run `fn` up to `attempts`
times, sleeping `delayMs` between consecutive tries, rethrowing
immediately on a non-transient error or on the last attempt.
-/
def withRetries {α : Type} (fn : Nat → Except DbError α) (attempts delayMs : Nat) :
    RetryOutcome α × Nat × List Nat :=
  withRetriesGo fn delayMs attempts attempts 0

/-- The startup-in-progress error used as the transient failure in examples. -/
def startingUpError : DbError := ⟨some "57P03".toList, "the database system is starting up".toList⟩

/-- A non-transient error used in examples. -/
def fatalError : DbError := ⟨none, "permission denied".toList⟩

/-! ## Schema Initializer: `ensureDb`

The module-level mutable `dbInitPromise` (initially `null`) and the
presence of the `pool` (non-null exactly when `DATABASE_URL` is set) are
the state.  A settled promise is modelled by the `RetryOutcome Unit` it
memoizes; the JavaScript runtime is single-threaded, so each observation
of the promise is a sequential step and "concurrent" callers are
interleaved calls that share the one promise object. -/

/-- Module state of the relational variant: whether `pool` is non-null
and the current value of `dbInitPromise`. -/
structure DbState where
  hasPool : Bool
  dbInitPromise : Option (RetryOutcome Unit)
deriving DecidableEq

/-- What one call of `ensureDb` yields to its caller: the synchronous
`throw new Error("DATABASE_URL is not set")`, or the outcome of the
(shared) initialization promise. -/
inductive EnsureResult where
  | notConfigured : EnsureResult
  | fromInit : RetryOutcome Unit → EnsureResult
deriving DecidableEq

/-- The error object thrown by `ensureDb` when `DATABASE_URL` is unset. -/
def noDbUrlError : DbError := ⟨none, "DATABASE_URL is not set".toList⟩

/--
`ensureDb` from the source, as a state transformer.  `createFn` is the
trace of outcomes of the `create table if not exists uploads ...` query
(its `i`-th invocation's outcome is `createFn i`).  Returns the caller's
result, the new state, the number of `withRetries` initializations
started by this call (0 or 1), and the number of `createFn` invocations
this call performed.  The retry policy is the source's
`{ attempts: 10, delayMs: 1000 }`.
-/
def ensureDb (createFn : Nat → Except DbError Unit) (s : DbState) :
    EnsureResult × DbState × Nat × Nat :=
  if !s.hasPool then
    (.notConfigured, s, 0, 0)
  else
    match s.dbInitPromise with
    | some o => (.fromInit o, s, 0, 0)
    | none =>
      let r := withRetries createFn 10 1000
      (.fromInit r.1, { s with dbInitPromise := some r.1 }, 1, r.2.1)

/-- `n` sequential calls of `ensureDb` against the shared state: the list
of results in order, the final state, the total number of initializations
started, and the total number of `createFn` invocations. -/
def ensureDbN (createFn : Nat → Except DbError Unit) :
    Nat → DbState → List EnsureResult × DbState × Nat × Nat
  | 0, s => ([], s, 0, 0)
  | n + 1, s =>
    let step := ensureDb createFn s
    let rest := ensureDbN createFn n step.2.1
    (step.1 :: rest.1, rest.2.1, step.2.2.1 + rest.2.2.1, step.2.2.2 + rest.2.2.2)

/-- The fresh state at process start: `dbInitPromise = null`. -/
def initialDbState (configured : Bool) : DbState := ⟨configured, none⟩

/-! ## Upload Store, relational variant

The `uploads` table is a list of rows plus the `bigserial` counter; the
database clock is passed explicitly as the `now()` value the insert
commits with.  `POST /upload` (after auth and multipart glue) and
`GET /latest` are modelled on their successful-query path; the
retry/transient plumbing around the queries is `withRetries` above. -/

/-- `req.file` as produced by multer's memory storage: `buffer` is the
payload, already as the decoded UTF-8 text the handler builds with
`buffer.toString("utf8")`. -/
structure UploadFile where
  originalname : List Char
  mimetype : List Char
  size : Nat
  buffer : List Char
deriving DecidableEq

/-- `(req.body?.hasHeader ?? "true").toString().toLowerCase() !== "false"`:
the form field is `none` when absent. -/
def parseHasHeader (field : Option (List Char)) : Bool :=
  !(lowerChars (field.getD "true".toList) == "false".toList)

/-- One row of the `uploads` table (§3 UploadRecord). -/
structure UploadRow where
  id : Nat
  originalName : List Char
  mimetype : List Char
  sizeBytes : Nat
  uploadedAt : Nat
  delimiter : Char
  hasHeader : Bool
  content : List Char
deriving DecidableEq

/-- The `uploads` table: committed rows in insertion order plus the next
`bigserial` value. -/
structure Store where
  rows : List UploadRow
  nextId : Nat
deriving DecidableEq

/--
The store operation of the `POST /upload` handler: sniff the delimiter
from the decoded content, parse `hasHeader`, default the mimetype
(`req.file.mimetype || "text/plain"`), and insert the row with generated
`id` and server-assigned `uploaded_at = t`.  Returns the `latest` object
of the 200 response (identical to the committed row) and the new store.
-/
def putUpload (s : Store) (t : Nat) (f : UploadFile) (hasHeaderField : Option (List Char)) :
    UploadRow × Store :=
  let content := f.buffer
  let delimiter := guessDelimiterFromContent content
  let hasHeader := parseHasHeader hasHeaderField
  let mt := if f.mimetype.isEmpty then "text/plain".toList else f.mimetype
  let row : UploadRow :=
    ⟨s.nextId, f.originalname, mt, f.size, t, delimiter, hasHeader, content⟩
  (row, ⟨s.rows ++ [row], s.nextId + 1⟩)

/-- `a` strictly precedes `b` in the `order by uploaded_at desc, id desc`
ordering, i.e. `b` is the more recent of the two. -/
def rowLater (a b : UploadRow) : Bool :=
  decide (a.uploadedAt < b.uploadedAt)
    || (decide (a.uploadedAt = b.uploadedAt) && decide (a.id < b.id))

/-- `select ... order by uploaded_at desc, id desc limit 1`: the row
maximal in `(uploadedAt, id)` lexicographic order, `none` on an empty
table. -/
def latestRow : List UploadRow → Option UploadRow
  | [] => none
  | r :: rs =>
    match latestRow rs with
    | none => some r
    | some m => some (if rowLater r m then m else r)

/-- Outcome of `GET /latest` on the successful-query path: the 404
`"No file uploaded yet"` or the 200 with the stored content. -/
inductive LatestResp where
  | notFound : LatestResp
  | payload : List Char → LatestResp
deriving DecidableEq

/-- The `GET /latest` handler's store operation: `rowCount === 0` maps to
the 404 branch, otherwise the row's content is sent. -/
def getLatestResp (s : Store) : LatestResp :=
  match latestRow s.rows with
  | none => .notFound
  | some row => .payload row.content

/-! ## Upload Store, filesystem variant

The data directory is a finite map from blob filename to content, and
`latest.json` (the pointer) is an optional parsed metadata record;
`readLatestMeta` returning `null` on a missing or unparsable file is the
`none` case. -/

/-- The parsed `latest.json` pointer record. -/
structure FsMeta where
  filename : List Char
  originalName : List Char
  mimetype : List Char
  size : Nat
  uploadedAt : List Char
deriving DecidableEq

/-- State of the filesystem variant: blobs in the data directory and the
pointer file. -/
structure FsState where
  files : List (List Char × List Char)
  latestMeta : Option FsMeta
deriving DecidableEq

/-- `fs.existsSync` + read of `path.join(DATA_DIR, name)`: first entry
with the given name (later writes shadow earlier ones). -/
def findFile (name : List Char) : List (List Char × List Char) → Option (List Char)
  | [] => none
  | (n, c) :: rest => if n == name then some c else findFile name rest

/--
The filesystem `POST /upload`: multer's disk storage writes the blob
under `storedFilename` (the `<timestamp>__<sanitized-name>` multer
computed), then `writeLatestMeta` overwrites the pointer with the new
record.  Returns the 200 response's `latest` object and the new state.
-/
def fsPut (fs : FsState) (storedFilename originalName mimetype : List Char)
    (size : Nat) (uploadedAt : List Char) (content : List Char) : FsMeta × FsState :=
  let meta : FsMeta := ⟨storedFilename, originalName, mimetype, size, uploadedAt⟩
  (meta, ⟨(storedFilename, content) :: fs.files, some meta⟩)

/-- Outcome of the filesystem `GET /latest`: the two distinct 404s
(`"No file uploaded yet"` vs the stale-pointer
`"Latest file not found on disk"`) and the 200 with the blob's bytes. -/
inductive FsResp where
  | noUpload : FsResp
  | staleNotFound : FsResp
  | payload : List Char → FsResp
deriving DecidableEq

/-- The filesystem `GET /latest` handler: `!meta || !meta.filename` is
the empty-store 404; a pointer naming a file absent from the directory is
the stale-pointer 404; otherwise the blob is streamed. -/
def fsGetLatest (fs : FsState) : FsResp :=
  match fs.latestMeta with
  | none => .noUpload
  | some m =>
    if m.filename.isEmpty then .noUpload
    else
      match findFile m.filename fs.files with
      | none => .staleNotFound
      | some content => .payload content

/-- One-step unfolding of the `withRetries` loop body. -/
theorem withRetriesGo_step {α : Type} (fn : Nat → Except DbError α)
    (delayMs attempts fuel i : Nat) :
    withRetriesGo fn delayMs attempts (fuel + 1) i =
      match fn i with
      | .ok v => (.ok v, 1, [])
      | .error e =>
        if !isTransientDbError e || i == attempts - 1 then
          (.err e, 1, [])
        else
          let r := withRetriesGo fn delayMs attempts fuel (i + 1)
          (r.1, r.2.1 + 1, delayMs :: r.2.2) := rfl

/-! ## Claim C1: the delimiter-sniffing characterization -/

/-- `firstLineChars` is indeed "the text up to the first line terminator,
or the whole text if none": either the input has no terminator (no `\n`;
a lone `\r` is not a terminator for `/\r?\n/`) and the first line is the
whole input, or the input decomposes as the terminator-free first line, a
`\n` or `\r\n` terminator, and the remainder. -/
theorem firstLineChars_spec : ∀ s : List Char,
    ('\n' ∉ s ∧ firstLineChars s = s)
    ∨ ∃ rest, '\n' ∉ firstLineChars s ∧
        (s = firstLineChars s ++ '\n' :: rest ∨ s = firstLineChars s ++ '\r' :: '\n' :: rest) := by
  intro s
  induction s with
  | nil => exact Or.inl ⟨by simp, rfl⟩
  | cons c rest ih =>
    rw [firstLineChars.eq_def]
    split
    · rename_i heq
      exact absurd heq (by simp)
    · rename_i tail heq
      obtain ⟨rfl, rfl⟩ : c = '\n' ∧ rest = tail := by
        injection heq with h1 h2
        exact ⟨h1, h2⟩
      exact Or.inr ⟨_, by simp, Or.inl rfl⟩
    · rename_i tail heq
      obtain ⟨rfl, rfl⟩ : c = '\r' ∧ rest = '\n' :: tail := by
        injection heq with h1 h2
        exact ⟨h1, h2⟩
      exact Or.inr ⟨_, by simp, Or.inr rfl⟩
    · rename_i c2 rest2 hnotNl hnotCrNl heq
      obtain ⟨rfl, rfl⟩ : c = c2 ∧ rest = rest2 := by
        injection heq with h1 h2
        exact ⟨h1, h2⟩
      have hc : c ≠ '\n' := fun hEq => hnotNl hEq
      rcases ih with ⟨hn, hfix⟩ | ⟨r2, hnl, hdec⟩
      · refine Or.inl ⟨?_, by rw [hfix]⟩
        intro hm
        rcases List.mem_cons.mp hm with h | h
        · exact hc h.symm
        · exact hn h
      · refine Or.inr ⟨r2, ?_, ?_⟩
        · intro hm
          rcases List.mem_cons.mp hm with h | h
          · exact hc h.symm
          · exact hnl h
        · rcases hdec with h | h
          · exact Or.inl (by rw [List.cons_append, ← h])
          · exact Or.inr (by rw [List.cons_append, ← h])

/-- Claim C1: `guessDelimiterFromContent` returns `;` if and only if the
number of `;` occurrences in the first line (the text up to the first
line terminator, or the whole text when there is none — the third
conjunct certifies that reading of `firstLineChars`) strictly exceeds
the number of `,` occurrences there; in every other case — ties and an
empty first line included — it returns `,`. -/
theorem guessDelimiter_semicolon_iff (s : List Char) :
    (guessDelimiterFromContent s = ';' ↔
      (firstLineChars s).count ',' < (firstLineChars s).count ';')
    ∧ (¬ (firstLineChars s).count ',' < (firstLineChars s).count ';' →
      guessDelimiterFromContent s = ',')
    ∧ (('\n' ∉ s ∧ firstLineChars s = s)
       ∨ ∃ rest, '\n' ∉ firstLineChars s ∧
           (s = firstLineChars s ++ '\n' :: rest
             ∨ s = firstLineChars s ++ '\r' :: '\n' :: rest)) := by
  refine ⟨?_, ?_, firstLineChars_spec s⟩ <;>
    simp only [guessDelimiterFromContent] <;>
    split <;> rename_i h <;> simp_all

/-- Witness for C1 at a concrete tie input. -/
theorem guessDelimiter_semicolon_iff_witness :
    guessDelimiterFromContent "a;b,c".toList = ',' :=
  (guessDelimiter_semicolon_iff "a;b,c".toList).2.1 (by decide)

/-! ## Claims C2 and C3: the retry policy -/

/-- If the next `k` outcomes starting at index `i` are transient failures
and the `(i+k)`-th is a success, with `k` strictly inside the remaining
fuel, the loop returns that success after `k + 1` invocations and `k`
sleeps of `delayMs` each.  The invariant `fuel + i = attempts` ties the
fuel to the source's loop counter. -/
theorem withRetriesGo_success {α : Type} (fn : Nat → Except DbError α)
    (delayMs attempts : Nat) (v : α) :
    ∀ (k fuel i : Nat), fuel + i = attempts → k < fuel →
      (∀ j, j < k → ∃ e, fn (i + j) = Except.error e ∧ isTransientDbError e = true) →
      fn (i + k) = Except.ok v →
      withRetriesGo fn delayMs attempts fuel i = (.ok v, k + 1, List.replicate k delayMs) := by
  intro k
  induction k with
  | zero =>
    intro fuel i hinv hk hfail hsucc
    obtain ⟨m, rfl⟩ : ∃ m, fuel = m + 1 := ⟨fuel - 1, by omega⟩
    simpa [withRetriesGo] using by rw [show i + 0 = i from rfl] at hsucc; rw [hsucc]
  | succ k ih =>
    intro fuel i hinv hk hfail hsucc
    obtain ⟨m, rfl⟩ : ∃ m, fuel = m + 1 := ⟨fuel - 1, by omega⟩
    obtain ⟨e, he, htr⟩ := hfail 0 (Nat.succ_pos k)
    rw [show i + 0 = i from rfl] at he
    have hne : (i == attempts - 1) = false := by
      simp only [beq_eq_false_iff_ne, ne_eq]
      omega
    have hrec := ih m (i + 1) (by omega) (by omega)
      (fun j hj => by
        obtain ⟨e2, he2, htr2⟩ := hfail (j + 1) (by omega)
        exact ⟨e2, by rw [show i + 1 + j = i + (j + 1) by omega]; exact he2, htr2⟩)
      (by rw [show i + 1 + k = i + (k + 1) by omega]; exact hsucc)
    simp [withRetriesGo, he, htr, hne, hrec, List.replicate_succ]

/-- If every remaining outcome is a transient failure, the loop consumes
all its fuel, sleeps between consecutive attempts only, and surfaces the
final attempt's error. -/
theorem withRetriesGo_exhaust {α : Type} (fn : Nat → Except DbError α)
    (delayMs attempts : Nat) (e : DbError) :
    ∀ (fuel i : Nat), fuel + i = attempts → 1 ≤ fuel →
      (∀ j, j < fuel → ∃ e2, fn (i + j) = Except.error e2 ∧ isTransientDbError e2 = true) →
      fn (attempts - 1) = Except.error e →
      withRetriesGo fn delayMs attempts fuel i
        = (.err e, fuel, List.replicate (fuel - 1) delayMs) := by
  intro fuel
  induction fuel with
  | zero => omega
  | succ m ih =>
    intro i hinv hone hfail hlast
    obtain ⟨e2, he2, htr2⟩ := hfail 0 (Nat.succ_pos m)
    rw [show i + 0 = i from rfl] at he2
    by_cases hm : m = 0
    · subst hm
      have hi : i = attempts - 1 := by omega
      subst hi
      rw [hlast] at he2
      obtain rfl : e = e2 := by injection he2
      simp [withRetriesGo, hlast]
    · obtain ⟨p, rfl⟩ : ∃ p, m = p + 1 := ⟨m - 1, by omega⟩
      have hne : (i == attempts - 1) = false := by
        simp only [beq_eq_false_iff_ne, ne_eq]
        omega
      have hrec := ih (i + 1) (by omega) (by omega)
        (fun j hj => by
          obtain ⟨e3, he3, htr3⟩ := hfail (j + 1) (by omega)
          exact ⟨e3, by rw [show i + 1 + j = i + (j + 1) by omega]; exact he3, htr3⟩)
        hlast
      rw [withRetriesGo_step, he2]
      simp [htr2, hne, hrec, List.replicate_succ]

/-- Claim C2: when the operation fails transiently on each of its first
`k < attempts` calls and succeeds on call `k + 1`, `withRetries` returns
that success, invokes the operation exactly `k + 1` times, and sleeps the
fixed `delayMs` between consecutive attempts (`k` sleeps); and when every
one of the `attempts` tries fails transiently, the final attempt's error
is the one surfaced. -/
theorem withRetries_retry_policy {α : Type} (fn : Nat → Except DbError α)
    (attempts delayMs k : Nat) (v : α)
    (hk : k < attempts)
    (hfail : ∀ j, j < k → ∃ e, fn j = Except.error e ∧ isTransientDbError e = true)
    (hsucc : fn k = Except.ok v) :
    withRetries fn attempts delayMs = (.ok v, k + 1, List.replicate k delayMs)
    ∧ ∀ (g : Nat → Except DbError α) (e : DbError),
        (∀ j, j < attempts → ∃ e2, g j = Except.error e2 ∧ isTransientDbError e2 = true) →
        g (attempts - 1) = Except.error e →
        withRetries g attempts delayMs
          = (.err e, attempts, List.replicate (attempts - 1) delayMs) := by
  constructor
  · exact withRetriesGo_success fn delayMs attempts v k attempts 0 (by omega) hk
      (fun j hj => by simpa using hfail j hj) (by simpa using hsucc)
  · intro g e hall hlast
    exact withRetriesGo_exhaust g delayMs attempts e attempts 0 (by omega) (by omega)
      (fun j hj => by simpa using hall j hj) hlast

/-- Witness for C2: two transient failures, success on the third of six
attempts; and exhaustion of three attempts by an always-transient trace. -/
theorem withRetries_retry_policy_witness :
    withRetries (fun i => if i < 2 then .error startingUpError else .ok 7) 6 1000
      = (.ok 7, 3, List.replicate 2 1000)
    ∧ withRetries (fun _ => (.error startingUpError : Except DbError Nat)) 6 1000
      = (.err startingUpError, 6, List.replicate 5 1000) := by
  have h := withRetries_retry_policy (fun i => if i < 2 then .error startingUpError else .ok 7)
    6 1000 2 7 (by omega)
    (fun j hj => ⟨startingUpError, by interval_cases j <;> exact ⟨rfl, by decide⟩⟩)
    rfl
  exact ⟨h.1, h.2 (fun _ => .error startingUpError) startingUpError
    (fun j hj => ⟨startingUpError, rfl, by decide⟩) rfl⟩

/-- Claim C3: a failure classified as fatal (non-transient) is propagated
after exactly one invocation, with no sleeping, for every
`attempts ≥ 1` — including the degenerate `attempts = 1`. -/
theorem withRetries_fatal_once {α : Type} (fn : Nat → Except DbError α)
    (attempts delayMs : Nat) (e : DbError)
    (hone : 1 ≤ attempts) (h0 : fn 0 = Except.error e)
    (hfatal : isTransientDbError e = false) :
    withRetries fn attempts delayMs = (.err e, 1, []) := by
  obtain ⟨m, rfl⟩ : ∃ m, attempts = m + 1 := ⟨attempts - 1, by omega⟩
  simp [withRetries, withRetriesGo, h0, hfatal]

/-- Witness for C3 at the degenerate `attempts = 1`. -/
theorem withRetries_fatal_once_witness :
    withRetries (fun _ => (.error fatalError : Except DbError Nat)) 1 1000
      = (.err fatalError, 1, []) :=
  withRetries_fatal_once (fun _ => .error fatalError) 1 1000 fatalError
    (by omega) rfl (by decide)

/-! ## Claims C4, C5 and C10: the memoized initializer -/

/-- Once `dbInitPromise` holds a settled outcome `o`, any number of
further `ensureDb` calls return `o`, start no initialization, invoke the
create query zero times, and leave the state unchanged. -/
theorem ensureDbN_memoized (createFn : Nat → Except DbError Unit)
    (o : RetryOutcome Unit) (n : Nat) :
    ensureDbN createFn n ⟨true, some o⟩
      = (List.replicate n (.fromInit o), ⟨true, some o⟩, 0, 0) := by
  induction n with
  | zero => rfl
  | succ n ih => simp [ensureDbN, ensureDb, ih, List.replicate_succ]

/-- Claim C4: with the backend configured, `n ≥ 1` calls of `ensureDb`
start the underlying create-structure initialization exactly once (and
perform only that one shared run's create invocations), and all `n`
callers observe the same outcome — the shared run's; in particular, after
a successful first call no later call re-attempts initialization. -/
theorem ensureDb_initializes_once (createFn : Nat → Except DbError Unit) (n : Nat)
    (hn : 1 ≤ n) :
    (ensureDbN createFn n (initialDbState true)).2.2.1 = 1
    ∧ (ensureDbN createFn n (initialDbState true)).2.2.2
        = (withRetries createFn 10 1000).2.1
    ∧ (ensureDbN createFn n (initialDbState true)).1
        = List.replicate n (EnsureResult.fromInit (withRetries createFn 10 1000).1) := by
  obtain ⟨m, rfl⟩ : ∃ m, n = m + 1 := ⟨n - 1, by omega⟩
  simp [ensureDbN, ensureDb, initialDbState, ensureDbN_memoized, List.replicate_succ]

/-- Witness for C4 with three callers and an immediately-successful
create query. -/
theorem ensureDb_initializes_once_witness :
    (ensureDbN (fun _ => .ok ()) 3 (initialDbState true)).2.2.1 = 1
    ∧ (ensureDbN (fun _ => .ok ()) 3 (initialDbState true)).2.2.2
        = (withRetries (fun _ => (.ok () : Except DbError Unit)) 10 1000).2.1
    ∧ (ensureDbN (fun _ => .ok ()) 3 (initialDbState true)).1
        = List.replicate 3
            (EnsureResult.fromInit (withRetries (fun _ => (.ok () : Except DbError Unit)) 10 1000).1) :=
  ensureDb_initializes_once (fun _ => .ok ()) 3 (by omega)

/-- Claim C5: with no `DATABASE_URL` configured, `ensureDb` fails
immediately with the `notConfigured` error, starts no initialization,
performs no backend operation, leaves the state untouched — and the
thrown `"DATABASE_URL is not set"` error is not classified transient, so
the retry machinery (which retries only transient classifications) never
retries it. -/
theorem ensureDb_unconfigured_fatal (createFn : Nat → Except DbError Unit) (s : DbState)
    (h : s.hasPool = false) :
    ensureDb createFn s = (.notConfigured, s, 0, 0)
    ∧ isTransientDbError noDbUrlError = false := by
  refine ⟨?_, by decide⟩
  simp [ensureDb, h]

/-- Witness for C5 at the fresh unconfigured state. -/
theorem ensureDb_unconfigured_fatal_witness :
    ensureDb (fun _ => .ok ()) (initialDbState false)
      = (.notConfigured, initialDbState false, 0, 0)
    ∧ isTransientDbError noDbUrlError = false :=
  ensureDb_unconfigured_fatal (fun _ => .ok ()) (initialDbState false) rfl

/-- Claim C10: when the first initialization run settles in failure, that
rejected promise stays in `dbInitPromise`: every later `ensureDb` call —
even against a backend trace `g` that would now succeed — observes the
same error, starts no initialization and performs no create invocation. -/
theorem ensureDb_failure_memoized (createFn : Nat → Except DbError Unit) (e : DbError)
    (hfail : (withRetries createFn 10 1000).1 = .err e) :
    (ensureDb createFn (initialDbState true)).1 = .fromInit (.err e)
    ∧ ∀ g : Nat → Except DbError Unit,
        ensureDb g (ensureDb createFn (initialDbState true)).2.1
          = (.fromInit (.err e), (ensureDb createFn (initialDbState true)).2.1, 0, 0) := by
  have hstep : ensureDb createFn (initialDbState true)
      = (.fromInit (.err e), ⟨true, some (.err e)⟩, 1,
          (withRetries createFn 10 1000).2.1) := by
    simp [ensureDb, initialDbState, hfail]
  rw [hstep]
  exact ⟨rfl, fun g => by simp [ensureDb]⟩

/-- Witness for C10: the create query fails fatally once, and a later
call whose trace would succeed still sees the memoized rejection. -/
theorem ensureDb_failure_memoized_witness :
    (ensureDb (fun _ => .error fatalError) (initialDbState true)).1
        = .fromInit (.err fatalError)
    ∧ ensureDb (fun _ => .ok ())
          (ensureDb (fun _ => .error fatalError) (initialDbState true)).2.1
        = (.fromInit (.err fatalError),
            (ensureDb (fun _ => .error fatalError) (initialDbState true)).2.1, 0, 0) :=
  ⟨(ensureDb_failure_memoized (fun _ => .error fatalError) fatalError (by decide)).1,
    (ensureDb_failure_memoized (fun _ => .error fatalError) fatalError (by decide)).2
      (fun _ => .ok ())⟩

/-! ## Claims C6, C7 and C8: the upload store -/

/-- The rows after a put are the old rows with the new row appended. -/
theorem putUpload_rows (s : Store) (t : Nat) (f : UploadFile) (hh : Option (List Char)) :
    (putUpload s t f hh).2.rows = s.rows ++ [(putUpload s t f hh).1] := rfl

/-- A put advances the `bigserial` counter by one. -/
theorem putUpload_nextId (s : Store) (t : Nat) (f : UploadFile) (hh : Option (List Char)) :
    (putUpload s t f hh).2.nextId = s.nextId + 1 := rfl

/-- The committed row's generated id is the counter value at put time. -/
theorem putUpload_row_id (s : Store) (t : Nat) (f : UploadFile) (hh : Option (List Char)) :
    (putUpload s t f hh).1.id = s.nextId := rfl

/-- The committed row's `uploaded_at` is the server time at put time. -/
theorem putUpload_row_uploadedAt (s : Store) (t : Nat) (f : UploadFile)
    (hh : Option (List Char)) :
    (putUpload s t f hh).1.uploadedAt = t := rfl

/-- A row that is older-or-equal in time and has a smaller id precedes
`nr` in the latest ordering. -/
theorem rowLater_of_le (r nr : UploadRow) (ht : r.uploadedAt ≤ nr.uploadedAt)
    (hid : r.id < nr.id) : rowLater r nr = true := by
  simp only [rowLater, Bool.or_eq_true, Bool.and_eq_true, decide_eq_true_eq]
  omega

/-- Appending a row that every existing row precedes makes it the row the
`order by uploaded_at desc, id desc limit 1` query selects. -/
theorem latestRow_append_last (rows : List UploadRow) (nr : UploadRow)
    (h : ∀ r ∈ rows, rowLater r nr = true) :
    latestRow (rows ++ [nr]) = some nr := by
  induction rows with
  | nil => rfl
  | cons r rs ih =>
    have hr := h r (List.mem_cons_self r rs)
    have hrest := ih (fun x hx => h x (List.mem_cons_of_mem r hx))
    simp [latestRow, hrest, hr]

/-- Against a well-formed store (`id`s below the counter) whose rows are
no newer than the commit time, the row a put commits is the one
`getLatest`'s query selects. -/
theorem putUpload_latest (s : Store) (t : Nat) (f : UploadFile) (hh : Option (List Char))
    (hwf : ∀ r ∈ s.rows, r.id < s.nextId)
    (ht : ∀ r ∈ s.rows, r.uploadedAt ≤ t) :
    latestRow (putUpload s t f hh).2.rows = some (putUpload s t f hh).1 := by
  rw [putUpload_rows]
  exact latestRow_append_last _ _ (fun r hr =>
    rowLater_of_le r _
      (by rw [putUpload_row_uploadedAt]; exact ht r hr)
      (by rw [putUpload_row_id]; exact hwf r hr))

/-- Claim C6: after a successful put of payload `P` followed by
`getLatest` with no intervening put, the served payload is exactly the
stored text of `P`, and the metadata the put responded with is what was
supplied or inferred at put time: the sniffed delimiter of `P`, the
parsed caller-supplied `hasHeader` flag, and the verbatim content. -/
theorem put_getLatest_roundtrip (s : Store) (t : Nat) (f : UploadFile)
    (hh : Option (List Char))
    (hwf : ∀ r ∈ s.rows, r.id < s.nextId)
    (ht : ∀ r ∈ s.rows, r.uploadedAt ≤ t) :
    getLatestResp (putUpload s t f hh).2 = .payload f.buffer
    ∧ (putUpload s t f hh).1.delimiter = guessDelimiterFromContent f.buffer
    ∧ (putUpload s t f hh).1.hasHeader = parseHasHeader hh
    ∧ (putUpload s t f hh).1.content = f.buffer := by
  refine ⟨?_, rfl, rfl, rfl⟩
  simp [getLatestResp, putUpload_latest s t f hh hwf ht]
  rfl

/-- Witness for C6 on a store already holding one older row. -/
theorem put_getLatest_roundtrip_witness :
    getLatestResp (putUpload ⟨[⟨1, "old".toList, "text/plain".toList, 1, 2, ',', true,
        "z".toList⟩], 2⟩ 5 ⟨"x.csv".toList, "text/csv".toList, 7, "a;b;c\n1;2;3".toList⟩
        (some "false".toList)).2
      = .payload "a;b;c\n1;2;3".toList
    ∧ (putUpload ⟨[⟨1, "old".toList, "text/plain".toList, 1, 2, ',', true,
        "z".toList⟩], 2⟩ 5 ⟨"x.csv".toList, "text/csv".toList, 7, "a;b;c\n1;2;3".toList⟩
        (some "false".toList)).1.delimiter
      = guessDelimiterFromContent "a;b;c\n1;2;3".toList
    ∧ (putUpload ⟨[⟨1, "old".toList, "text/plain".toList, 1, 2, ',', true,
        "z".toList⟩], 2⟩ 5 ⟨"x.csv".toList, "text/csv".toList, 7, "a;b;c\n1;2;3".toList⟩
        (some "false".toList)).1.hasHeader
      = parseHasHeader (some "false".toList)
    ∧ (putUpload ⟨[⟨1, "old".toList, "text/plain".toList, 1, 2, ',', true,
        "z".toList⟩], 2⟩ 5 ⟨"x.csv".toList, "text/csv".toList, 7, "a;b;c\n1;2;3".toList⟩
        (some "false".toList)).1.content
      = "a;b;c\n1;2;3".toList :=
  put_getLatest_roundtrip _ 5 _ _ (by decide) (by decide)

/-- Claim C7: on a store with no committed record the relational
`getLatest` takes the explicit not-found branch (the 404), not an error;
and in the filesystem backend a pointer naming a blob absent from the
data directory yields the stale-pointer not-found, a branch distinct from
the empty-store one (and not a generic error: `FsResp` has no error
constructor to take). -/
theorem getLatest_empty_notFound (s : Store) (fs : FsState) (m : FsMeta)
    (hs : s.rows = [])
    (hm : fs.latestMeta = some m) (hfn : m.filename.isEmpty = false)
    (hmiss : findFile m.filename fs.files = none) :
    getLatestResp s = .notFound
    ∧ fsGetLatest fs = .staleNotFound
    ∧ FsResp.staleNotFound ≠ FsResp.noUpload := by
  refine ⟨?_, ?_, by decide⟩
  · simp [getLatestResp, hs, latestRow]
  · simp [fsGetLatest, hm, hfn, hmiss]

/-- Witness for C7: the empty table, and a pointer to a deleted blob. -/
theorem getLatest_empty_notFound_witness :
    getLatestResp ⟨[], 1⟩ = .notFound
    ∧ fsGetLatest ⟨[("kept".toList, "data".toList)],
        some ⟨"gone".toList, "x.csv".toList, "text/csv".toList, 4, "t".toList⟩⟩
      = .staleNotFound
    ∧ FsResp.staleNotFound ≠ FsResp.noUpload :=
  getLatest_empty_notFound ⟨[], 1⟩ _ _ rfl rfl (by decide) (by decide)

/-- Claim C8: after two sequential successful puts, `getLatest` selects
only the second put's row — the maximal one in `(uploadedAt, id)`
lexicographic order — while the first row still exists in the table but
is a different row; the query yields exactly the one latest record; and
in the filesystem backend the pointer now names only the second blob,
which resolves to the second payload. -/
theorem second_put_latest (s : Store) (t1 t2 : Nat) (f1 f2 : UploadFile)
    (h1 h2 : Option (List Char))
    (hwf : ∀ r ∈ s.rows, r.id < s.nextId)
    (ht1 : ∀ r ∈ s.rows, r.uploadedAt ≤ t1) (h12 : t1 ≤ t2) :
    latestRow (putUpload (putUpload s t1 f1 h1).2 t2 f2 h2).2.rows
        = some (putUpload (putUpload s t1 f1 h1).2 t2 f2 h2).1
    ∧ (putUpload s t1 f1 h1).1 ∈ (putUpload (putUpload s t1 f1 h1).2 t2 f2 h2).2.rows
    ∧ (putUpload s t1 f1 h1).1 ≠ (putUpload (putUpload s t1 f1 h1).2 t2 f2 h2).1
    ∧ getLatestResp (putUpload (putUpload s t1 f1 h1).2 t2 f2 h2).2 = .payload f2.buffer
    ∧ ∀ (fs : FsState) (fn1 on1 mt1 u1 c1 fn2 on2 mt2 u2 c2 : List Char)
        (sz1 sz2 : Nat),
        ((fsPut (fsPut fs fn1 on1 mt1 sz1 u1 c1).2 fn2 on2 mt2 sz2 u2 c2).2).latestMeta
            = some ⟨fn2, on2, mt2, sz2, u2⟩
        ∧ findFile fn2
              ((fsPut (fsPut fs fn1 on1 mt1 sz1 u1 c1).2 fn2 on2 mt2 sz2 u2 c2).2).files
            = some c2 := by
  have hwf1 : ∀ r ∈ (putUpload s t1 f1 h1).2.rows, r.id < (putUpload s t1 f1 h1).2.nextId := by
    rw [putUpload_rows, putUpload_nextId]
    intro r hr
    rcases List.mem_append.mp hr with hmem | hmem
    · exact Nat.lt_succ_of_lt (hwf r hmem)
    · obtain rfl := List.mem_singleton.mp hmem
      rw [putUpload_row_id]
      omega
  have ht2 : ∀ r ∈ (putUpload s t1 f1 h1).2.rows, r.uploadedAt ≤ t2 := by
    rw [putUpload_rows]
    intro r hr
    rcases List.mem_append.mp hr with hmem | hmem
    · exact le_trans (ht1 r hmem) h12
    · obtain rfl := List.mem_singleton.mp hmem
      rw [putUpload_row_uploadedAt]
      exact h12
  have hlatest := putUpload_latest (putUpload s t1 f1 h1).2 t2 f2 h2 hwf1 ht2
  refine ⟨hlatest, ?_, ?_, ?_, ?_⟩
  · rw [putUpload_rows (putUpload s t1 f1 h1).2, putUpload_rows s]
    exact List.mem_append.mpr (Or.inl (List.mem_append.mpr (Or.inr (List.mem_singleton.mpr rfl))))
  · intro hEq
    have hid := congrArg UploadRow.id hEq
    rw [putUpload_row_id, putUpload_row_id, putUpload_nextId] at hid
    omega
  · simp [getLatestResp, hlatest]
    rfl
  · intro fs fn1 on1 mt1 u1 c1 fn2 on2 mt2 u2 c2 sz1 sz2
    exact ⟨rfl, by simp [fsPut, findFile]⟩

/-- Witness for C8: two concrete puts at increasing timestamps. -/
theorem second_put_latest_witness :
    latestRow (putUpload (putUpload ⟨[], 1⟩ 3 ⟨"a.csv".toList, [], 3, "1,2".toList⟩ none).2
        4 ⟨"b.csv".toList, [], 3, "3,4".toList⟩ none).2.rows
        = some (putUpload (putUpload ⟨[], 1⟩ 3 ⟨"a.csv".toList, [], 3, "1,2".toList⟩ none).2
            4 ⟨"b.csv".toList, [], 3, "3,4".toList⟩ none).1
    ∧ (putUpload ⟨[], 1⟩ 3 ⟨"a.csv".toList, [], 3, "1,2".toList⟩ none).1
        ∈ (putUpload (putUpload ⟨[], 1⟩ 3 ⟨"a.csv".toList, [], 3, "1,2".toList⟩ none).2
            4 ⟨"b.csv".toList, [], 3, "3,4".toList⟩ none).2.rows
    ∧ (putUpload ⟨[], 1⟩ 3 ⟨"a.csv".toList, [], 3, "1,2".toList⟩ none).1
        ≠ (putUpload (putUpload ⟨[], 1⟩ 3 ⟨"a.csv".toList, [], 3, "1,2".toList⟩ none).2
            4 ⟨"b.csv".toList, [], 3, "3,4".toList⟩ none).1
    ∧ getLatestResp (putUpload (putUpload ⟨[], 1⟩ 3 ⟨"a.csv".toList, [], 3, "1,2".toList⟩
            none).2 4 ⟨"b.csv".toList, [], 3, "3,4".toList⟩ none).2
        = .payload "3,4".toList
    ∧ ((fsPut (fsPut ⟨[], none⟩ "t1__a.csv".toList "a.csv".toList "text/csv".toList 3
            "u1".toList "1,2".toList).2 "t2__b.csv".toList "b.csv".toList "text/csv".toList 3
            "u2".toList "3,4".toList).2).latestMeta
        = some ⟨"t2__b.csv".toList, "b.csv".toList, "text/csv".toList, 3, "u2".toList⟩
    ∧ findFile "t2__b.csv".toList
          ((fsPut (fsPut ⟨[], none⟩ "t1__a.csv".toList "a.csv".toList "text/csv".toList 3
              "u1".toList "1,2".toList).2 "t2__b.csv".toList "b.csv".toList "text/csv".toList 3
              "u2".toList "3,4".toList).2).files
        = some "3,4".toList := by
  have h := second_put_latest ⟨[], 1⟩ 3 4 ⟨"a.csv".toList, [], 3, "1,2".toList⟩
    ⟨"b.csv".toList, [], 3, "3,4".toList⟩ none none (by decide) (by decide) (by omega)
  exact ⟨h.1, h.2.1, h.2.2.1, h.2.2.2.1,
    h.2.2.2.2 ⟨[], none⟩ "t1__a.csv".toList "a.csv".toList "text/csv".toList "u1".toList
      "1,2".toList "t2__b.csv".toList "b.csv".toList "text/csv".toList "u2".toList
      "3,4".toList 3 3⟩

/-! ## Claim C9: the `hasHeader` form field -/

/-- Counterexample to claim C9 as stated: the handler lower-cases the
field before comparing, so the value `"FALSE"` — which is not the string
`"false"` — nevertheless stores `hasHeader = false`. -/
theorem parseHasHeader_claim_cex :
    parseHasHeader (some "FALSE".toList) = false
    ∧ "FALSE".toList ≠ "false".toList := by decide

/-- Claim C9 (amended): the stored `hasHeader` flag is `false` exactly
when the optional form field is present and its lower-cased value is the
string `"false"`; it is `true` for every other value of the field,
including its absence. -/
theorem parseHasHeader_spec (field : Option (List Char)) :
    parseHasHeader field = false ↔
      ∃ v, field = some v ∧ lowerChars v = "false".toList := by
  cases field with
  | none =>
    constructor
    · intro h
      exact absurd h (by decide)
    · rintro ⟨v, hv, -⟩
      cases hv
  | some v =>
    simp [parseHasHeader]

/-! ## Concrete sanity checks of the embedding -/

example : guessDelimiterFromContent "a;b;c\nrest".toList = ';' := by decide
example : guessDelimiterFromContent "a,b,c".toList = ',' := by decide
example : guessDelimiterFromContent "".toList = ',' := by decide
example : guessDelimiterFromContent ";;\r\n,,,,".toList = ';' := by decide
example : isTransientDbError ⟨some "57P03".toList, []⟩ = true := by decide
example :
    isTransientDbError ⟨none, "FATAL: the Database System is Starting Up".toList⟩ = true := by
  decide
example : isTransientDbError ⟨none, "syntax error".toList⟩ = false := by decide
example :
    withRetries (fun i => if i < 2 then .error startingUpError else .ok 7) 6 1000
      = (.ok 7, 3, [1000, 1000]) := by decide
example :
    withRetries (fun _ => (.error startingUpError : Except DbError Nat)) 3 50
      = (.err startingUpError, 3, [50, 50]) := by decide
example : parseHasHeader none = true := by decide
example : parseHasHeader (some "".toList) = true := by decide
example : parseHasHeader (some "no".toList) = true := by decide
example : fsGetLatest ⟨[], none⟩ = .noUpload := by decide
